import Mathlib

/-!
Verification of the availability-compression and slot-matching engine of
`affluences_reservation.py`.

Modelling conventions (shallow embedding):
* A time of day is the number of minutes after midnight (the source parses
  `"%H:%M"` strings with `strptime`; all parsed values live on one fixed day,
  so differences and the `+30 minutes` step are plain minute arithmetic).
* A calendar date is an integer day number (`datetime.date` arithmetic in the
  source only ever adds whole days and compares dates).
* Durations and interval lengths are measured in integer minutes.  The source
  keeps them in hours as Python floats, but every value it ever produces is a
  multiple of half an hour and every comparison it performs is preserved
  exactly by the order-isomorphic rescaling `h hours = 60h minutes`; the
  source's `length - 0.5` becomes `length - 30` here.
* Python `dict`s (insertion ordered) become association lists with
  replace-in-place insertion; Python `list`s become `List`.
* The two HTTP collaborators are parameters: `get_available_slots` becomes an
  oracle `avail : String → ℤ → List ResourceAvail`, and the
  `get_info`/`get_resources` lookup becomes a plain `List ResourceInfo`.
-/

namespace Affluences

/-- One provider-reported half-hour slot: the parsed `hour` field (minutes
after midnight) and the raw `state` string.  Mirrors one element of a
resource's `hours` list in the JSON consumed by `compress_availabilities`. -/
structure TimeState where
  hour : Nat
  state : String
  deriving DecidableEq

/-- One per-resource block of the provider response consumed by
`compress_availabilities`: `resource_id`, `resource_name` and the raw list of
`hours` entries. -/
structure ResourceAvail where
  resource_id : String
  resource_name : String
  hours : List TimeState
  deriving DecidableEq

/-- A compressed availability interval, mirroring the dicts built at the end
of `compress_availabilities`: `slot = [first.time(), last.time()]` (minutes),
`length = (last - first)` (minutes here; hours in the source) and the
resource's display name. -/
structure Interval where
  slot : Nat × Nat
  length : ℤ
  resource_name : String
  deriving DecidableEq

/-- One step of the run-building loop of `compress_availabilities`
(lines 119-126 of the source): append `t` to the last run when it equals the
last run member plus 30 minutes, otherwise start a new singleton run. -/
def stepRun (acc : List (List Nat)) (t : Nat) : List (List Nat) :=
  match acc.getLast? with
  | none => acc ++ [[t]]
  | some run =>
      if t = run.getLastD 0 + 30 then acc.dropLast ++ [run ++ [t]]
      else acc ++ [[t]]

/-- The run-building loop of `compress_availabilities` over a list of
already-filtered available times, in input order (the source does not sort). -/
def groupRuns (ts : List Nat) : List (List Nat) := ts.foldl stepRun []

/-- `consecutive_slots`' final `map` in `compress_availabilities`: a run
`x` becomes `{slot := [x[0], x[-1]], length := x[-1] - x[0], resource_name}`. -/
def runToInterval (rname : String) (run : List Nat) : Interval :=
  ⟨(run.headD 0, run.getLastD 0), (run.getLastD 0 : ℤ) - (run.headD 0 : ℤ), rname⟩

/-- Per-resource body of `compress_availabilities`: filter the `hours` to the
`"available"` entries, keep their times, group into consecutive 30-minute
runs and convert each run to an `Interval`. -/
def compressResource (r : ResourceAvail) : List Interval :=
  (groupRuns ((r.hours.filter (fun x => x.state == "available")).map
    (fun x => x.hour))).map (runToInterval r.resource_name)

/-- Python `dict` assignment `slots[resource_id] = v` on an insertion-ordered
dict: replace the value in place when the key is present, else append. -/
def dictInsert (d : List (String × List Interval)) (k : String)
    (v : List Interval) : List (String × List Interval) :=
  if d.any (fun p => p.1 == k) then
    d.map (fun p => if p.1 == k then (k, v) else p)
  else d ++ [(k, v)]

/-- `compress_availabilities` (source lines 92-138): build the dict mapping
each resource id of the response to its list of compressed intervals. -/
def compress_availabilities (available_slots : List ResourceAvail) :
    List (String × List Interval) :=
  available_slots.foldl
    (fun acc r => dictInsert acc r.resource_id (compressResource r)) []

/-- The inner loop of `find_ideal_slot` over one resource's interval list:
skip an interval when `length >= slot.length - 30` (the source's
`length >= slot["length"] - 0.5` in hours) or when the interval's start is
more than 30 minutes from the desired start; return the first survivor. -/
def findInIntervals (resource : String) (d : ℤ) (s : Nat) :
    List Interval → Option (String × Interval)
  | [] => none
  | iv :: rest =>
      if d ≥ iv.length - 30 then findInIntervals resource d s rest
      else if ((iv.slot.1 : ℤ) - (s : ℤ)).natAbs > 30 then
        findInIntervals resource d s rest
      else some (resource, iv)

/-- `find_ideal_slot` (source lines 141-173): scan the resources of the dict
in order, and each resource's intervals in list order; return the first
`[resource, slot]` passing both checks, else `None`.  `d` is the desired
duration (minutes here, hours in the source), `s` the desired start time. -/
def find_ideal_slot (slots : List (String × List Interval)) (d : ℤ) (s : Nat) :
    Option (String × Interval) :=
  match slots with
  | [] => none
  | (r, ivs) :: rest =>
      match findInIntervals r d s ivs with
      | some x => some x
      | none => find_ideal_slot rest d s

/-- The `ReservationType` enum of the source. -/
inductive ReservationType where
  | FULL_DAY
  | ONLY_MORNING
  | ONLY_AFTERNOON
  deriving DecidableEq

/-- A desired slot as built by `generate_slots`: the dict
`{"slot": [time, duration], "date": day}` — desired start time of day
(minutes), desired duration (minutes), and date (day number). -/
structure DSlot where
  time : Nat
  duration : ℤ
  date : ℤ
  deriving DecidableEq

/-- `generate_slots` (source lines 292-315).  `now` is the day number of
`datetime.datetime.now().date()`; the source clamps `end_date` to
`now + 7` days, then for each day of `range(delta.days + 1)` appends a
09:00 slot for FULL_DAY/ONLY_MORNING and a 14:00 slot for
FULL_DAY/ONLY_AFTERNOON, each with the given duration. -/
def generate_slots (now start_date end_date : ℤ)
    (reservation_type : ReservationType) (slot_duration : ℤ) : List DSlot :=
  let one_week_from_now := now + 7
  let endD := if end_date > one_week_from_now then one_week_from_now else end_date
  let delta := endD - start_date
  (List.range (delta + 1).toNat).flatMap (fun i =>
    let day := start_date + (i : ℤ)
    (if reservation_type = ReservationType.FULL_DAY ∨
        reservation_type = ReservationType.ONLY_MORNING then
      [⟨9 * 60, slot_duration, day⟩] else []) ++
    (if reservation_type = ReservationType.FULL_DAY ∨
        reservation_type = ReservationType.ONLY_AFTERNOON then
      [⟨14 * 60, slot_duration, day⟩] else []))

/-- One `{resource_name, resource_id}` record of `get_resources`' output. -/
structure ResourceInfo where
  resource_name : String
  resource_id : String
  deriving DecidableEq

/-- A reservation dict as built in `construct_reservations` (lines 224-231). -/
structure Reservation where
  resource_id : String
  resource_type : String
  resource_name : String
  start_time : Nat
  duration : ℤ
  date : ℤ
  deriving DecidableEq

/-- `list.remove` (first occurrence) specialised to `DSlot`, as used by
`slots.remove(slot)` in `construct_reservations`. -/
def eraseFirst : List DSlot → DSlot → List DSlot
  | [], _ => []
  | x :: xs, s => if x = s then xs else x :: eraseFirst xs s

/-- The observable outcome of a planner run: the final pending slot list (the
source logs it as the missing slots), the reservations built, and the log of
availability queries actually issued (one `(resource_id, slot)` entry per
`get_available_slots` call). -/
structure PlanResult where
  pending : List DSlot
  reservations : List Reservation
  queries : List (String × DSlot)
  deriving DecidableEq

theorem eraseFirst_length_of_mem {l : List DSlot} {s : DSlot} (h : s ∈ l) :
    (eraseFirst l s).length + 1 = l.length := by
  induction l with
  | nil => cases h
  | cons x xs ih =>
      by_cases hx : x = s
      · simp [eraseFirst, hx]
      · have hs : s ∈ xs := by
          cases h with
          | head => exact absurd rfl hx
          | tail _ h => exact h
        simp [eraseFirst, hx, ih hs]

/-- The inner `for slot in slots` loop of `construct_reservations` for one
resource, with Python's list-iterator semantics made explicit: the iterator
keeps a bare index `k` into the mutating list, so removing the matched slot
shifts the remaining elements down and the next iteration reads the element
after the removed one's successor.  Each iteration logs the
`get_available_slots` query it issues.  The recursion is driven by a `fuel`
counter so that the definition is structurally recursive (and hence
kernel-computable); `resourcePass` below starts it with `fuel = slots.length`,
which is exact: the loop runs at most `slots.length` iterations because `k`
grows by one per iteration and the list never grows, and
`resourcePassAux_fuel_succ` shows any larger fuel gives the same result. -/
def resourcePassAux (avail : String → ℤ → List ResourceAvail) (rid rname : String) :
    Nat → List DSlot → Nat → List Reservation → List (String × DSlot) → PlanResult
  | 0, slots, _, res, log => ⟨slots, res, log⟩
  | fuel + 1, slots, k, res, log =>
      match slots[k]? with
      | none => ⟨slots, res, log⟩
      | some slot =>
          match find_ideal_slot (compress_availabilities (avail rid slot.date))
              slot.duration slot.time with
          | some ideal =>
              resourcePassAux avail rid rname fuel (eraseFirst slots slot) (k + 1)
                (res ++ [⟨ideal.1, rname, ideal.2.resource_name, slot.time,
                  slot.duration, slot.date⟩])
                (log ++ [(rid, slot)])
          | none =>
              resourcePassAux avail rid rname fuel slots (k + 1) res
                (log ++ [(rid, slot)])

/-- One inner-loop execution of `construct_reservations` for one resource. -/
def resourcePass (avail : String → ℤ → List ResourceAvail) (rid rname : String)
    (slots : List DSlot) (res : List Reservation)
    (log : List (String × DSlot)) : PlanResult :=
  resourcePassAux avail rid rname slots.length slots 0 res log

/-- Fuel irrelevance: having at least `slots.length - k` fuel is enough, so
extra fuel never changes the run; this certifies that the `fuel` wrapper in
`resourcePass` computes the limit of the loop, not a truncation. -/
theorem resourcePassAux_fuel_succ (avail : String → ℤ → List ResourceAvail)
    (rid rname : String) (fuel : Nat) :
    ∀ (slots : List DSlot) (k : Nat) (res : List Reservation)
      (log : List (String × DSlot)), slots.length ≤ k + fuel →
      resourcePassAux avail rid rname (fuel + 1) slots k res log =
        resourcePassAux avail rid rname fuel slots k res log := by
  induction fuel with
  | zero =>
      intro slots k res log hlen
      have hk : slots[k]? = none := by
        rw [List.getElem?_eq_none_iff]
        omega
      simp [resourcePassAux, hk]
  | succ fuel ih =>
      intro slots k res log hlen
      show resourcePassAux avail rid rname (fuel + 1 + 1) slots k res log = _
      rw [resourcePassAux, resourcePassAux]
      cases hk : slots[k]? with
      | none => rfl
      | some slot =>
          have hmem : slot ∈ slots := List.getElem?_mem hk
          dsimp only
          cases find_ideal_slot (compress_availabilities (avail rid slot.date))
              slot.duration slot.time with
          | none => exact ih slots (k + 1) res _ (by omega)
          | some ideal =>
              have := eraseFirst_length_of_mem hmem
              exact ih (eraseFirst slots slot) (k + 1) _ _ (by omega)

/-- The outer `for resource, name in resource_ids` loop of
`construct_reservations`, with the `if len(slots) == 0: break` early exit. -/
def planLoop (avail : String → ℤ → List ResourceAvail) :
    List (String × String) → List DSlot → List Reservation →
    List (String × DSlot) → PlanResult
  | [], slots, res, log => ⟨slots, res, log⟩
  | (rid, rname) :: rest, slots, res, log =>
      let p := resourcePass avail rid rname slots res log
      if p.pending.length = 0 then p
      else planLoop avail rest p.pending p.reservations p.queries

/-- Resolution of the preference names to `(resource_id, resource_name)`
pairs (source lines 208-212): for each preferred name, every resource record
with that name contributes a pair, in preference order. -/
def resolvePreferences (resources : List ResourceInfo)
    (resourse_preference : List String) : List (String × String) :=
  resourse_preference.flatMap (fun pref =>
    (resources.filter (fun r => r.resource_name == pref)).map
      (fun r => (r.resource_id, r.resource_name)))

/-- `construct_reservations` (source lines 194-241), with the HTTP lookups
abstracted: `resources` stands for `get_resources(get_info(...))` and `avail`
for `get_available_slots`. -/
def construct_reservations (avail : String → ℤ → List ResourceAvail)
    (resources : List ResourceInfo) (resourse_preference : List String)
    (slots : List DSlot) : PlanResult :=
  planLoop avail (resolvePreferences resources resourse_preference) slots [] []

/-- The acceptance predicate of the Slot Matcher, read off the two guards of
`find_ideal_slot` positively: the interval's length minus 30 minutes (0.5h in
the source's hours) strictly exceeds the desired duration, and the interval's
start lies within 30 minutes of the desired start. -/
def qualifies (d : ℤ) (s : Nat) (iv : Interval) : Prop :=
  iv.length - 30 > d ∧ ((iv.slot.1 : ℤ) - (s : ℤ)).natAbs ≤ 30

instance (d : ℤ) (s : Nat) (iv : Interval) : Decidable (qualifies d s iv) := by
  unfold qualifies
  infer_instance

/-- The resource dict flattened to `(resource, interval)` pairs in iteration
order: resources in dict order, then intervals in list order. -/
def flattenSlots (slots : List (String × List Interval)) : List (String × Interval) :=
  slots.flatMap (fun p => p.2.map (fun iv => (p.1, iv)))

theorem findInIntervals_eq_find (r : String) (d : ℤ) (s : Nat) (ivs : List Interval) :
    findInIntervals r d s ivs =
      (ivs.map (fun iv => (r, iv))).find? (fun p => decide (qualifies d s p.2)) := by
  induction ivs with
  | nil => rfl
  | cons iv rest ih =>
      simp only [findInIntervals, List.map_cons, List.find?_cons]
      by_cases h1 : d ≥ iv.length - 30
      · have hq : ¬ qualifies d s iv := fun hq => absurd hq.1 (not_lt.mpr h1)
        simp [h1, hq, ih]
      · by_cases h2 : ((iv.slot.1 : ℤ) - (s : ℤ)).natAbs > 30
        · have hq : ¬ qualifies d s iv := fun hq => absurd hq.2 (not_le.mpr h2)
          simp [h1, h2, hq, ih]
        · have hq : qualifies d s iv := ⟨lt_of_not_ge h1, le_of_not_gt h2⟩
          simp [h1, h2, hq]

/-- `find_ideal_slot` is exactly `find?` (first match) over the flattened
iteration order, with `qualifies` as the acceptance test. -/
theorem find_ideal_slot_eq_find (slots : List (String × List Interval)) (d : ℤ) (s : Nat) :
    find_ideal_slot slots d s =
      (flattenSlots slots).find? (fun p => decide (qualifies d s p.2)) := by
  induction slots with
  | nil => rfl
  | cons p rest ih =>
      obtain ⟨r, ivs⟩ := p
      simp only [find_ideal_slot, flattenSlots, List.flatMap_cons, List.find?_append,
        findInIntervals_eq_find, ih, flattenSlots]
      cases (ivs.map fun iv => (r, iv)).find? (fun p => decide (qualifies d s p.2)) <;> simp

theorem find_ideal_slot_singleton (r : String) (iv : Interval) (d : ℤ) (s : Nat) :
    find_ideal_slot [(r, [iv])] d s = some (r, iv) ↔ qualifies d s iv := by
  rw [find_ideal_slot_eq_find]
  by_cases h : qualifies d s iv <;> simp [flattenSlots, List.find?, h]

theorem find_ideal_slot_some_qualifies {slots : List (String × List Interval)}
    {d : ℤ} {s : Nat} {r : String} {iv : Interval}
    (h : find_ideal_slot slots d s = some (r, iv)) : qualifies d s iv := by
  rw [find_ideal_slot_eq_find] at h
  have := List.find?_some h
  simpa using this

/-- Claim C1: for every resource-to-intervals mapping, desired duration `d`
and desired start `s`, `find_ideal_slot` returns the first `(resource,
interval)` pair — resources in the mapping's iteration order, intervals in
list order — whose interval satisfies both `interval.length - 30 > d`
(the source's `length - 0.5 > d` in hours) and `|interval.start - s| ≤ 30`
minutes; it returns `none` exactly when no interval of any resource
satisfies both constraints. -/
theorem C1_find_ideal_slot_first_fit (slots : List (String × List Interval))
    (d : ℤ) (s : Nat) :
    find_ideal_slot slots d s =
      (flattenSlots slots).find? (fun p => decide (qualifies d s p.2)) ∧
    (find_ideal_slot slots d s = none ↔
      ∀ p ∈ flattenSlots slots, ¬ qualifies d s p.2) := by
  refine ⟨find_ideal_slot_eq_find slots d s, ?_⟩
  rw [find_ideal_slot_eq_find, List.find?_eq_none]
  simp

/-- Claim C5, counterexample: the claim says a desired duration of 4 hours
(240 minutes) matched against an interval of length exactly 4.5 hours (270
minutes) starting exactly at the desired start yields a match; the code
rejects it (`4 >= 4.5 - 0.5` triggers `continue`) and returns `None`. -/
theorem C5_counterexample :
    find_ideal_slot [("r1", [⟨(540, 810), 270, "seat"⟩])] 240 540 = none := by decide

/-- Claim C5, amended: the matcher's length tolerance accepts an interval
exactly when `interval.length - 0.5 > desired_duration` is TRUE (in minutes:
`length - 30 > d`), i.e. the check the claim states is inverted; in
particular any interval of length exactly 4.5 hours (270) is rejected for a
4-hour (240) request regardless of its start. -/
theorem C5_length_tolerance (r : String) (iv : Interval) (d : ℤ) (s : Nat) :
    (find_ideal_slot [(r, [iv])] d s = some (r, iv) ↔
      iv.length - 30 > d ∧ ((iv.slot.1 : ℤ) - (s : ℤ)).natAbs ≤ 30) ∧
    (∀ (nm : String) (a b : Nat), find_ideal_slot [(r, [⟨(a, b), 270, nm⟩])] 240 s = none) := by
  constructor
  · exact find_ideal_slot_singleton r iv d s
  · intro nm a b
    rw [find_ideal_slot_eq_find]
    have : ¬ qualifies 240 s ⟨(a, b), 270, nm⟩ := by
      intro hq
      have := hq.1
      simp only [Interval.length] at this
      omega
    simp [flattenSlots, List.find?, this]

/-- Claim C10: the start-time tolerance is inclusive at its 30-minute
boundary: any returned interval starts within 30 minutes of the desired
start (so a deviation of strictly more than 30 minutes is never returned),
and an interval whose start differs by exactly 30 minutes and passes the
length check is returned. -/
theorem C10_start_tolerance_inclusive :
    (∀ (slots : List (String × List Interval)) (d : ℤ) (s : Nat) (r : String)
      (iv : Interval), find_ideal_slot slots d s = some (r, iv) →
        ((iv.slot.1 : ℤ) - (s : ℤ)).natAbs ≤ 30) ∧
    (∀ (r : String) (iv : Interval) (d : ℤ) (s : Nat),
      ((iv.slot.1 : ℤ) - (s : ℤ)).natAbs = 30 → iv.length - 30 > d →
        find_ideal_slot [(r, [iv])] d s = some (r, iv)) := by
  constructor
  · intro slots d s r iv h
    exact (find_ideal_slot_some_qualifies h).2
  · intro r iv d s h30 hlen
    exact (find_ideal_slot_singleton r iv d s).mpr ⟨hlen, le_of_eq h30⟩

/-- Witness for C10 at concrete inputs: an interval starting 30 minutes after
the desired 09:00 start and long enough (5h = 300) is returned; and the
soundness half applied to that same run shows its start deviation is within
30 minutes. -/
theorem C10_start_tolerance_inclusive_witness :
    find_ideal_slot [("r1", [⟨(570, 870), 300, "seat"⟩])] 240 540 =
      some ("r1", ⟨(570, 870), 300, "seat"⟩) ∧
    ((((570 : Nat) : ℤ) - ((540 : Nat) : ℤ)).natAbs ≤ 30) :=
  ⟨C10_start_tolerance_inclusive.2 "r1" ⟨(570, 870), 300, "seat"⟩ 240 540
      (by decide) (by decide),
   C10_start_tolerance_inclusive.1 [("r1", [⟨(570, 870), 300, "seat"⟩])] 240 540
      "r1" ⟨(570, 870), 300, "seat"⟩
      (C10_start_tolerance_inclusive.2 "r1" ⟨(570, 870), 300, "seat"⟩ 240 540
        (by decide) (by decide))⟩

/-- The arithmetic progression `t0, t0+30, ..., t0+30*(n-1)`: the times of a
gap-free run of `n` available entries on the half-hour grid. -/
def prog : Nat → Nat → List Nat
  | _, 0 => []
  | t0, n + 1 => t0 :: prog (t0 + 30) n

theorem prog_getLastD (t0 n d : Nat) : (prog t0 (n + 1)).getLastD d = t0 + 30 * n := by
  induction n generalizing t0 d with
  | zero => simp [prog]
  | succ n ih =>
      rw [prog, List.getLastD_cons, ih]
      ring

/-- Folding the run-builder over a 30-minute chain continuing the last run's
last element just extends that run. -/
theorem foldl_stepRun_chain (m : Nat) :
    ∀ (x : Nat) (acc0 : List (List Nat)) (run : List Nat),
      (prog (x + 30) m).foldl stepRun (acc0 ++ [run ++ [x]]) =
        acc0 ++ [run ++ [x] ++ prog (x + 30) m] := by
  induction m with
  | zero =>
      intro x acc0 run
      simp [prog]
  | succ m ih =>
      intro x acc0 run
      rw [prog, List.foldl_cons]
      have hstep : stepRun (acc0 ++ [run ++ [x]]) (x + 30) =
          acc0 ++ [(run ++ [x]) ++ [x + 30]] := by
        unfold stepRun
        rw [List.getLast?_concat]
        simp [List.getLastD_concat, List.dropLast_concat]
      rw [hstep, ih (x + 30) acc0 (run ++ [x])]
      simp [List.append_assoc]

/-- A gap-free 30-minute progression forms a single run. -/
theorem groupRuns_prog (t0 n : Nat) : groupRuns (prog t0 (n + 1)) = [prog t0 (n + 1)] := by
  show (prog t0 (n + 1)).foldl stepRun [] = _
  rw [prog, List.foldl_cons]
  have h0 : stepRun [] t0 = [] ++ [([] : List Nat) ++ [t0]] := rfl
  rw [h0, foldl_stepRun_chain n t0 [] []]
  simp [prog]

/-- Two progressions separated by anything other than exactly +30 minutes
form exactly two runs. -/
theorem groupRuns_prog_gap (t0 n b0 m : Nat) (hgap : b0 ≠ t0 + 30 * n + 30) :
    groupRuns (prog t0 (n + 1) ++ prog b0 (m + 1)) =
      [prog t0 (n + 1), prog b0 (m + 1)] := by
  show (prog t0 (n + 1) ++ prog b0 (m + 1)).foldl stepRun [] = _
  rw [List.foldl_append]
  have h1 : (prog t0 (n + 1)).foldl stepRun [] = [prog t0 (n + 1)] := groupRuns_prog t0 n
  rw [h1, show prog b0 (m + 1) = b0 :: prog (b0 + 30) m from rfl, List.foldl_cons]
  have hstep : stepRun [prog t0 (n + 1)] b0 = [prog t0 (n + 1)] ++ [[b0]] := by
    unfold stepRun
    have hlast : [prog t0 (n + 1)].getLast? = some (prog t0 (n + 1)) := rfl
    rw [hlast]
    dsimp only
    rw [prog_getLastD]
    simp [hgap]
  rw [hstep]
  have := foldl_stepRun_chain m b0 [prog t0 (n + 1)] []
  simpa using this

theorem runToInterval_prog (rname : String) (t0 n : Nat) :
    runToInterval rname (prog t0 (n + 1)) =
      ⟨(t0, t0 + 30 * n), 30 * (n : ℤ), rname⟩ := by
  unfold runToInterval
  rw [prog_getLastD]
  have hh : (prog t0 (n + 1)).headD 0 = t0 := by rw [prog]; rfl
  rw [hh]
  have hlen : ((t0 + 30 * n : ℕ) : ℤ) - (t0 : ℤ) = 30 * (n : ℤ) := by push_cast; ring
  rw [hlen]

/-- A one-resource response compresses to one dict entry whose intervals are
the grouped runs of its filtered available times. -/
theorem compress_one (rid rname : String) (hours : List TimeState) (ts : List Nat)
    (hfilter : (hours.filter (fun x => x.state == "available")).map (fun x => x.hour) = ts) :
    compress_availabilities [⟨rid, rname, hours⟩] =
      [(rid, (groupRuns ts).map (runToInterval rname))] := by
  simp [compress_availabilities, dictInsert, compressResource, hfilter]

theorem compress_prog_single (rid rname : String) (hours : List TimeState) (t0 n : Nat)
    (hfilter : (hours.filter (fun x => x.state == "available")).map (fun x => x.hour) =
      prog t0 (n + 1)) :
    compress_availabilities [⟨rid, rname, hours⟩] =
      [(rid, [⟨(t0, t0 + 30 * n), 30 * (n : ℤ), rname⟩])] := by
  rw [compress_one rid rname hours _ hfilter, groupRuns_prog]
  simp [runToInterval_prog]

theorem compress_prog_gap (rid rname : String) (hours : List TimeState) (t0 n b0 m : Nat)
    (hfilter : (hours.filter (fun x => x.state == "available")).map (fun x => x.hour) =
      prog t0 (n + 1) ++ prog b0 (m + 1))
    (hgap : b0 ≠ t0 + 30 * n + 30) :
    compress_availabilities [⟨rid, rname, hours⟩] =
      [(rid, [⟨(t0, t0 + 30 * n), 30 * (n : ℤ), rname⟩,
              ⟨(b0, b0 + 30 * m), 30 * (m : ℤ), rname⟩])] := by
  rw [compress_one rid rname hours _ hfilter, groupRuns_prog_gap t0 n b0 m hgap]
  simp [runToInterval_prog]

/-- Claim C2: the compressor keeps exactly the entries with state
`"available"` and merges them into runs extended while each time equals the
previous plus 30 minutes.  First conjunct: a resource whose available
entries form the gap-free progression `t0, ..., t0+30n` compresses to
exactly one interval spanning the full range.  Second conjunct: a single
gap of more than 30 minutes splits the entries into exactly two intervals —
e.g. available entries at 09:00, 09:30, 10:00, 11:00 give 09:00-10:00
(length 60 minutes = 1.0h) and 11:00-11:00 (length 0 = 0.0h). -/
theorem C2_compression (rid rname : String) (hours : List TimeState) (t0 n b0 m : Nat) :
    ((hours.filter (fun x => x.state == "available")).map (fun x => x.hour) =
        prog t0 (n + 1) →
      compress_availabilities [⟨rid, rname, hours⟩] =
        [(rid, [⟨(t0, t0 + 30 * n), 30 * (n : ℤ), rname⟩])]) ∧
    ((hours.filter (fun x => x.state == "available")).map (fun x => x.hour) =
        prog t0 (n + 1) ++ prog b0 (m + 1) → t0 + 30 * n + 30 < b0 →
      compress_availabilities [⟨rid, rname, hours⟩] =
        [(rid, [⟨(t0, t0 + 30 * n), 30 * (n : ℤ), rname⟩,
                ⟨(b0, b0 + 30 * m), 30 * (m : ℤ), rname⟩])]) := by
  constructor
  · exact compress_prog_single rid rname hours t0 n
  · intro hfilter hgap
    exact compress_prog_gap rid rname hours t0 n b0 m hfilter (by omega)

/-- Witness for C2 on the spec's own example (09:00, 09:30, 10:00 available,
a non-available 10:30 entry in between, 11:00 available): exactly the two
intervals 09:00-10:00 of length 60 minutes (1.0h) and 11:00-11:00 of
length 0. -/
theorem C2_compression_witness :
    compress_availabilities [⟨"r1", "seat",
      [⟨540, "available"⟩, ⟨570, "available"⟩, ⟨600, "available"⟩, ⟨630, "booked"⟩,
       ⟨660, "available"⟩]⟩] =
      [("r1", [⟨(540, 600), 60, "seat"⟩, ⟨(660, 660), 0, "seat"⟩])] := by
  have h := (C2_compression "r1" "seat"
    [⟨540, "available"⟩, ⟨570, "available"⟩, ⟨600, "available"⟩, ⟨630, "booked"⟩,
     ⟨660, "available"⟩] 540 2 660 0).2 (by decide) (by decide)
  simpa using h

/-- Claim C6, counterexample: a run consisting of the single available entry
09:00 yields the interval 09:00-09:00 with length 0, not
`(last - first) + 30` minutes (the claim's `+0.5` hours): the code adds no
trailing half-hour block for the last entry. -/
theorem C6_counterexample :
    ∃ iv : Interval,
      compress_availabilities [⟨"r1", "seat", [⟨540, "available"⟩]⟩] = [("r1", [iv])] ∧
      iv.length ≠ ((iv.slot.2 : ℤ) - (iv.slot.1 : ℤ)) + 30 :=
  ⟨⟨(540, 540), 0, "seat"⟩, by decide, by decide⟩

/-- Claim C6, amended: for a run of `n+1` consecutive available entries the
emitted interval's length equals `last - first` (that is, `n` half-hours =
`(count - 1) * 0.5` hours), with no extra half-hour added for the last
entry's block. -/
theorem C6_run_length (rid rname : String) (hours : List TimeState) (t0 n : Nat)
    (hfilter : (hours.filter (fun x => x.state == "available")).map (fun x => x.hour) =
      prog t0 (n + 1)) :
    ∃ iv : Interval, compress_availabilities [⟨rid, rname, hours⟩] = [(rid, [iv])] ∧
      iv.length = (iv.slot.2 : ℤ) - (iv.slot.1 : ℤ) ∧ iv.length = 30 * (n : ℤ) := by
  refine ⟨⟨(t0, t0 + 30 * n), 30 * (n : ℤ), rname⟩,
    compress_prog_single rid rname hours t0 n hfilter, ?_, rfl⟩
  show (30 * (n : ℤ)) = ((t0 + 30 * n : ℕ) : ℤ) - (t0 : ℤ)
  push_cast
  ring

/-- Witness for C6 (amended) at 09:00, 09:30, 10:00: one interval, length
60 minutes = `(3 - 1) * 0.5` hours = `last - first`. -/
theorem C6_run_length_witness :
    ∃ iv : Interval,
      compress_availabilities [⟨"r1", "seat",
        [⟨540, "available"⟩, ⟨570, "available"⟩, ⟨600, "available"⟩]⟩] = [("r1", [iv])] ∧
      iv.length = (iv.slot.2 : ℤ) - (iv.slot.1 : ℤ) ∧ iv.length = 30 * ((2 : ℕ) : ℤ) :=
  C6_run_length "r1" "seat"
    [⟨540, "available"⟩, ⟨570, "available"⟩, ⟨600, "available"⟩] 540 2 (by decide)

/-- Claim C7, counterexample: the compressor does not sort.  The input with
available entries at 09:30 then 09:00 is a permutation of its time-sorted
version, yet compresses differently (two degenerate intervals, in input
order, instead of the merged 09:00-09:30 interval of the sorted list). -/
theorem C7_counterexample :
    ([⟨570, "available"⟩, ⟨540, "available"⟩] : List TimeState).Perm
      [⟨540, "available"⟩, ⟨570, "available"⟩] ∧
    compress_availabilities [⟨"r1", "seat", [⟨570, "available"⟩, ⟨540, "available"⟩]⟩] ≠
      compress_availabilities [⟨"r1", "seat", [⟨540, "available"⟩, ⟨570, "available"⟩]⟩] :=
  ⟨by decide, by decide⟩

/-- Modelled from the spec (§4.1: "sort by time-of-day before merging"): the
compressor variant that sorts each resource's available times before the
merge.  The code itself contains no such sort; this definition exists to
compare the code against the spec's prescription. -/
def compressResourceSorted (r : ResourceAvail) : List Interval :=
  (groupRuns (List.insertionSort (· ≤ ·)
    ((r.hours.filter (fun x => x.state == "available")).map (fun x => x.hour)))).map
    (runToInterval r.resource_name)

/-- Modelled from the spec: `compress_availabilities` with the per-resource
sort prescribed by §4.1. -/
def compress_availabilities_sorted (available_slots : List ResourceAvail) :
    List (String × List Interval) :=
  available_slots.foldl
    (fun acc r => dictInsert acc r.resource_id (compressResourceSorted r)) []

theorem foldl_dictInsert_congr (f g : ResourceAvail → List Interval) :
    ∀ (l : List ResourceAvail) (acc : List (String × List Interval)),
      (∀ r ∈ l, f r = g r) →
      l.foldl (fun acc r => dictInsert acc r.resource_id (f r)) acc =
        l.foldl (fun acc r => dictInsert acc r.resource_id (g r)) acc := by
  intro l
  induction l with
  | nil => intro acc _; rfl
  | cons r rest ih =>
      intro acc h
      simp only [List.foldl_cons]
      rw [h r (List.mem_cons_self _ _)]
      exact ih _ (fun x hx => h x (List.mem_cons_of_mem _ hx))

/-- Claim C7, amended: the compressor merges in input order without sorting,
so it agrees with the sort-first compressor prescribed by the spec exactly
when each resource's available entries already arrive in ascending time
order; a non-sorted permutation can change the output (see the
counterexample). -/
theorem C7_sorted_agreement (available_slots : List ResourceAvail)
    (h : ∀ r ∈ available_slots, List.Sorted (· ≤ ·)
      ((r.hours.filter (fun x => x.state == "available")).map (fun x => x.hour))) :
    compress_availabilities available_slots =
      compress_availabilities_sorted available_slots := by
  unfold compress_availabilities compress_availabilities_sorted
  apply foldl_dictInsert_congr
  intro r hr
  unfold compressResource compressResourceSorted
  rw [List.Sorted.insertionSort_eq (h r hr)]

/-- Witness for C7 (amended) on an already-sorted input. -/
theorem C7_sorted_agreement_witness :
    compress_availabilities [⟨"r1", "seat", [⟨540, "available"⟩, ⟨570, "available"⟩]⟩] =
      compress_availabilities_sorted
        [⟨"r1", "seat", [⟨540, "available"⟩, ⟨570, "available"⟩]⟩] :=
  C7_sorted_agreement _ (by decide)

end Affluences

namespace Affluences

/-- The per-day emission of the Slot Generator: a 09:00 slot for
FULL_DAY/ONLY_MORNING, then a 14:00 slot for FULL_DAY/ONLY_AFTERNOON. -/
def dayBlock (rt : ReservationType) (dur : ℤ) (day : ℤ) : List DSlot :=
  (if rt = ReservationType.FULL_DAY ∨ rt = ReservationType.ONLY_MORNING then
    [⟨9 * 60, dur, day⟩] else []) ++
  (if rt = ReservationType.FULL_DAY ∨ rt = ReservationType.ONLY_AFTERNOON then
    [⟨14 * 60, dur, day⟩] else [])

/-- The Slot Generator as the spec words it (§4.4): clamp the end date to at
most 7 days after now, then for each day of the inclusive range emit the
morning slot and then the afternoon slot as the type allows. -/
def generate_slots_spec (now start_date end_date : ℤ)
    (reservation_type : ReservationType) (slot_duration : ℤ) : List DSlot :=
  (List.range (min end_date (now + 7) - start_date + 1).toNat).flatMap
    (fun i => dayBlock reservation_type slot_duration (start_date + (i : ℤ)))

theorem generate_slots_eq_spec (now s e : ℤ) (rt : ReservationType) (dur : ℤ) :
    generate_slots now s e rt dur = generate_slots_spec now s e rt dur := by
  unfold generate_slots generate_slots_spec dayBlock
  dsimp only
  have hmin : (if e > now + 7 then now + 7 else e) = min e (now + 7) := by
    rcases le_or_lt e (now + 7) with h | h
    · rw [if_neg (not_lt.mpr h), min_eq_left h]
    · rw [if_pos h, min_eq_right h.le]
  rw [hmin]

theorem dayBlock_mem {rt : ReservationType} {dur day : ℤ} {sl : DSlot}
    (h : sl ∈ dayBlock rt dur day) :
    sl.date = day ∧ sl.duration = dur ∧ (sl.time = 540 ∨ sl.time = 840) := by
  cases rt <;> simp [dayBlock] at h
  · rcases h with h | h <;> subst h <;> exact ⟨rfl, rfl, by simp⟩
  · subst h; exact ⟨rfl, rfl, by simp⟩
  · subst h; exact ⟨rfl, rfl, by simp⟩

/-- Chronological order of the generated slots: by date, then morning before
afternoon inside one day. -/
def slotOrder (a b : DSlot) : Prop :=
  a.date < b.date ∨ (a.date = b.date ∧ a.time < b.time)

theorem dayBlock_pairwise (rt : ReservationType) (dur day : ℤ) :
    (dayBlock rt dur day).Pairwise slotOrder := by
  cases rt <;> simp [dayBlock, slotOrder]

theorem generator_pairwise (rt : ReservationType) (dur : ℤ) :
    ∀ (N : Nat) (s : ℤ),
      ((List.range N).flatMap (fun i => dayBlock rt dur (s + (i : ℤ)))).Pairwise slotOrder := by
  intro N
  induction N with
  | zero => intro s; simp
  | succ N ih =>
      intro s
      rw [List.range_succ, List.flatMap_append]
      refine List.pairwise_append.mpr ⟨ih s, ?_, ?_⟩
      · simpa using dayBlock_pairwise rt dur (s + (N : ℤ))
      · intro a ha b hb
        obtain ⟨i, hi, hai⟩ := List.mem_flatMap.mp ha
        have hb' : b ∈ dayBlock rt dur (s + (N : ℤ)) := by simpa using hb
        have hadate := (dayBlock_mem hai).1
        have hbdate := (dayBlock_mem hb').1
        left
        have hiN : i < N := List.mem_range.mp hi
        rw [hadate, hbdate]
        have : (i : ℤ) < (N : ℤ) := by exact_mod_cast hiN
        omega

/-- Claim C8: the Slot Generator clamps the end date to at most 7 days
after now and, for each day from the start date through the clamped end date
inclusive, emits a 09:00 slot when the type is FULL_DAY or ONLY_MORNING and
a 14:00 slot when the type is FULL_DAY or ONLY_AFTERNOON, each with the
given duration, in chronological order with morning before afternoon within
a day.  (Times in minutes: 09:00 = 540, 14:00 = 840.) -/
theorem C8_generate_slots (now start_date end_date : ℤ)
    (reservation_type : ReservationType) (slot_duration : ℤ) :
    generate_slots now start_date end_date reservation_type slot_duration =
      generate_slots_spec now start_date end_date reservation_type slot_duration ∧
    (∀ sl ∈ generate_slots now start_date end_date reservation_type slot_duration,
      start_date ≤ sl.date ∧ sl.date ≤ min end_date (now + 7) ∧
        sl.duration = slot_duration ∧ (sl.time = 540 ∨ sl.time = 840)) ∧
    (generate_slots now start_date end_date reservation_type slot_duration).Pairwise
      slotOrder := by
  refine ⟨generate_slots_eq_spec now start_date end_date reservation_type slot_duration,
    ?_, ?_⟩
  · intro sl hsl
    rw [generate_slots_eq_spec] at hsl
    obtain ⟨i, hi, hbl⟩ := List.mem_flatMap.mp hsl
    obtain ⟨hdate, hdur, htime⟩ := dayBlock_mem hbl
    have hiN := List.mem_range.mp hi
    set M := min end_date (now + 7) with hM
    refine ⟨?_, ?_, hdur, htime⟩ <;> rw [hdate] <;> omega
  · rw [generate_slots_eq_spec]
    exact generator_pairwise reservation_type slot_duration _ start_date

end Affluences

namespace Affluences

/-- A provider response with every half-hour from 09:00 to 14:00 available:
compresses to the single interval 09:00-14:00 of length 300 minutes (5h),
which qualifies for a 4-hour (240) request at 09:00. -/
def morningHours : List TimeState :=
  [⟨540, "available"⟩, ⟨570, "available"⟩, ⟨600, "available"⟩, ⟨630, "available"⟩,
   ⟨660, "available"⟩, ⟨690, "available"⟩, ⟨720, "available"⟩, ⟨750, "available"⟩,
   ⟨780, "available"⟩, ⟨810, "available"⟩, ⟨840, "available"⟩]

/-- Availability oracle for the C3 run: the queried resource is free
09:00-14:00 on days 0 and 1 and has no availability on any other day. -/
def availScenario3 : String → ℤ → List ResourceAvail := fun rid d =>
  if d = 0 ∨ d = 1 then [⟨rid, "seat", morningHours⟩] else []

/-- The three desired slots of the C3 run: 4 hours from 09:00 on days 0, 1, 2;
days 0 and 1 are matchable, day 2 is not. -/
def slotsScenario3 : List DSlot := [⟨540, 240, 0⟩, ⟨540, 240, 1⟩, ⟨540, 240, 2⟩]

/-- Claim C3, failing run: one resource, three desired slots of which exactly
two (days 0 and 1) are matchable.  The code books only day 0 and leaves BOTH
day 1 and day 2 pending: removing the matched slot during iteration shifts
the list, so the iterator skips the day-1 slot (the query log shows days 0
and 2 queried, never day 1) even though day 1 qualifies (second conjunct). -/
theorem C3_skip_bug_run :
    construct_reservations availScenario3 [⟨"SALA", "r1"⟩] ["SALA"] slotsScenario3 =
      ⟨[⟨540, 240, 1⟩, ⟨540, 240, 2⟩],
       [⟨"r1", "SALA", "seat", 540, 240, 0⟩],
       [("r1", ⟨540, 240, 0⟩), ("r1", ⟨540, 240, 2⟩)]⟩ ∧
    find_ideal_slot (compress_availabilities (availScenario3 "r1" 1)) 240 540 ≠ none :=
  ⟨by decide, by decide⟩

/-- Availability oracle for the C4 run: both resources are free 09:00-14:00
on every day, so each offers a qualifying interval for every slot. -/
def availScenario4 : String → ℤ → List ResourceAvail := fun rid _ =>
  [⟨rid, "seat", morningHours⟩]

/-- The two desired slots of the C4 run: 4 hours from 09:00 on days 0 and 1. -/
def slotsScenario4 : List DSlot := [⟨540, 240, 0⟩, ⟨540, 240, 1⟩]

/-- Claim C4, failing run: preferred resource R1 ("r1") and fallback R2
("r2") both offer a qualifying interval for the day-1 slot (first conjunct),
yet the code books that slot on R2 and the query log contains the R2 query
for it: after the day-0 slot matches on R1, the in-place removal makes R1's
pass skip the day-1 slot, which is then claimed by the lower-preference R2. -/
theorem C4_greedy_violation_run :
    find_ideal_slot (compress_availabilities (availScenario4 "r1" 1)) 240 540 ≠ none ∧
    construct_reservations availScenario4 [⟨"R1", "r1"⟩, ⟨"R2", "r2"⟩] ["R1", "R2"]
        slotsScenario4 =
      ⟨[],
       [⟨"r1", "R1", "seat", 540, 240, 0⟩, ⟨"r2", "R2", "seat", 540, 240, 1⟩],
       [("r1", ⟨540, 240, 0⟩), ("r2", ⟨540, 240, 1⟩)]⟩ ∧
    ("r2", (⟨540, 240, 1⟩ : DSlot)) ∈
      (construct_reservations availScenario4 [⟨"R1", "r1"⟩, ⟨"R2", "r2"⟩] ["R1", "R2"]
        slotsScenario4).queries :=
  ⟨by decide, by decide, by decide⟩

end Affluences

namespace Affluences

theorem eraseFirst_subset {l : List DSlot} {s x : DSlot} (h : x ∈ eraseFirst l s) : x ∈ l := by
  induction l with
  | nil => exact absurd h (List.not_mem_nil x)
  | cons y ys ih =>
      by_cases hy : y = s
      · rw [eraseFirst, if_pos hy] at h
        exact List.mem_cons_of_mem _ h
      · rw [eraseFirst, if_neg hy] at h
        rcases List.mem_cons.mp h with h | h
        · exact h ▸ List.mem_cons_self _ _
        · exact List.mem_cons_of_mem _ (ih h)

/-- Claim C9's per-reservation shape: the reservation books some input slot
`s` with the slot's own start time, duration and date, while only its
resource id and resource (display) name come from the `find_ideal_slot`
match of the availability query for `s`, and its type name from one of the
resolved preference pairs. -/
def ReservationWellFormed (avail : String → ℤ → List ResourceAvail)
    (ids : List (String × String)) (slots0 : List DSlot) (r : Reservation) : Prop :=
  ∃ s ∈ slots0, ∃ q ∈ ids, ∃ iv : Interval,
    find_ideal_slot (compress_availabilities (avail q.1 s.date)) s.duration s.time =
      some (r.resource_id, iv) ∧
    r.resource_type = q.2 ∧ r.resource_name = iv.resource_name ∧
    r.start_time = s.time ∧ r.duration = s.duration ∧ r.date = s.date

theorem resourcePassAux_pending_subset (avail : String → ℤ → List ResourceAvail)
    (rid rname : String) :
    ∀ (fuel : Nat) (slots : List DSlot) (k : Nat) (res : List Reservation)
      (log : List (String × DSlot)),
      ∀ s ∈ (resourcePassAux avail rid rname fuel slots k res log).pending, s ∈ slots := by
  intro fuel
  induction fuel with
  | zero =>
      intro slots k res log
      rw [resourcePassAux]
      intro s hs
      exact hs
  | succ fuel ih =>
      intro slots k res log
      rw [resourcePassAux]
      cases hk : slots[k]? with
      | none => intro s hs; exact hs
      | some slot =>
          dsimp only
          cases find_ideal_slot (compress_availabilities (avail rid slot.date))
              slot.duration slot.time with
          | some ideal =>
              intro s hs
              exact eraseFirst_subset (ih (eraseFirst slots slot) (k + 1) _ _ s hs)
          | none =>
              intro s hs
              exact ih slots (k + 1) _ _ s hs

theorem resourcePassAux_reservations (avail : String → ℤ → List ResourceAvail)
    (rid rname : String) (ids : List (String × String)) (slots0 : List DSlot)
    (hid : (rid, rname) ∈ ids) :
    ∀ (fuel : Nat) (slots : List DSlot) (k : Nat) (res : List Reservation)
      (log : List (String × DSlot)),
      (∀ s ∈ slots, s ∈ slots0) →
      (∀ r ∈ res, ReservationWellFormed avail ids slots0 r) →
      ∀ r ∈ (resourcePassAux avail rid rname fuel slots k res log).reservations,
        ReservationWellFormed avail ids slots0 r := by
  intro fuel
  induction fuel with
  | zero =>
      intro slots k res log _ hres
      rw [resourcePassAux]
      exact hres
  | succ fuel ih =>
      intro slots k res log hsub hres
      rw [resourcePassAux]
      cases hk : slots[k]? with
      | none => exact hres
      | some slot =>
          dsimp only
          cases hfind : find_ideal_slot (compress_availabilities (avail rid slot.date))
              slot.duration slot.time with
          | none => exact ih slots (k + 1) res _ hsub hres
          | some ideal =>
              refine ih (eraseFirst slots slot) (k + 1) _ _ ?_ ?_
              · intro s hs
                exact hsub s (eraseFirst_subset hs)
              · intro r hr
                rcases List.mem_append.mp hr with hr | hr
                · exact hres r hr
                · have hr' : r = ⟨ideal.1, rname, ideal.2.resource_name, slot.time,
                      slot.duration, slot.date⟩ := by simpa using hr
                  subst hr'
                  exact ⟨slot, hsub slot (List.getElem?_mem hk), (rid, rname), hid,
                    ideal.2, hfind, rfl, rfl, rfl, rfl, rfl⟩

theorem planLoop_reservations (avail : String → ℤ → List ResourceAvail)
    (ids0 : List (String × String)) (slots0 : List DSlot) :
    ∀ (ids : List (String × String)) (slots : List DSlot) (res : List Reservation)
      (log : List (String × DSlot)),
      (∀ q ∈ ids, q ∈ ids0) → (∀ s ∈ slots, s ∈ slots0) →
      (∀ r ∈ res, ReservationWellFormed avail ids0 slots0 r) →
      ∀ r ∈ (planLoop avail ids slots res log).reservations,
        ReservationWellFormed avail ids0 slots0 r := by
  intro ids
  induction ids with
  | nil =>
      intro slots res log _ _ hres
      exact hres
  | cons q rest ih =>
      obtain ⟨rid, rname⟩ := q
      intro slots res log hids hsub hres
      rw [planLoop]
      have hid0 : (rid, rname) ∈ ids0 := hids _ (List.mem_cons_self _ _)
      have hpass := resourcePassAux_reservations avail rid rname ids0 slots0 hid0
        slots.length slots 0 res log hsub hres
      have hpend : ∀ s ∈ (resourcePass avail rid rname slots res log).pending,
          s ∈ slots0 := fun s hs => hsub s
        (resourcePassAux_pending_subset avail rid rname slots.length slots 0 res log s hs)
      split
      · exact hpass
      · exact ih _ _ _ (fun q hq => hids q (List.mem_cons_of_mem _ hq)) hpend hpass

/-- Claim C9: every reservation produced by the planner carries the date,
start time and duration of the desired slot it satisfies — not the matched
interval's boundaries — while only its resource id and resource name come
from the match result (and its type name from the resolved preference pair
of the pass that matched it). -/
theorem C9_reservation_fields (avail : String → ℤ → List ResourceAvail)
    (resources : List ResourceInfo) (resourse_preference : List String)
    (slots0 : List DSlot) (r : Reservation)
    (h : r ∈ (construct_reservations avail resources resourse_preference
      slots0).reservations) :
    ReservationWellFormed avail (resolvePreferences resources resourse_preference)
      slots0 r :=
  planLoop_reservations avail _ slots0 _ slots0 [] [] (fun _ hq => hq) (fun _ hs => hs)
    (fun r hr => absurd hr (List.not_mem_nil r)) r h

/-- Availability oracle for the C9 witness: the resource is free from 09:30
to 15:00 every day — the matched interval starts 30 minutes after the
desired 09:00. -/
def availScenario9 : String → ℤ → List ResourceAvail := fun rid _ =>
  [⟨rid, "seat",
    [⟨570, "available"⟩, ⟨600, "available"⟩, ⟨630, "available"⟩, ⟨660, "available"⟩,
     ⟨690, "available"⟩, ⟨720, "available"⟩, ⟨750, "available"⟩, ⟨780, "available"⟩,
     ⟨810, "available"⟩, ⟨840, "available"⟩, ⟨870, "available"⟩, ⟨900, "available"⟩]⟩]

/-- Witness for C9: the matched interval starts at 09:30 (570), yet the
booked reservation keeps the desired 09:00 (540) start and the desired
4-hour (240) duration, taking only resource id and name from the match. -/
theorem C9_reservation_fields_witness :
    ReservationWellFormed availScenario9 (resolvePreferences [⟨"R1", "r1"⟩] ["R1"])
      [⟨540, 240, 0⟩] ⟨"r1", "R1", "seat", 540, 240, 0⟩ :=
  C9_reservation_fields availScenario9 [⟨"R1", "r1"⟩] ["R1"] [⟨540, 240, 0⟩]
    ⟨"r1", "R1", "seat", 540, 240, 0⟩ (by decide)

end Affluences
